import Mathlib

/-!
Verification development for the QuillFuzz adaptive generate-validate-repair
pipeline (`src/gen_w_improve.py`) and the standalone combination sampler
(`src/circuit_assembler.py`).

The external collaborators (the LLM call `ask_any_model`, the compile and run
checks `compile_generated_program` / `run_generated_program`, prompt-template
loading) are modelled as an explicit environment of response functions; the
control flow of the pipeline itself is translated statement by statement.
Python floats (fix ratios, quality scores) are modelled as exact rationals;
Python truthiness of optional strings is modelled explicitly.
-/

namespace QuillFuzz

/-- Python truthiness of a string: `bool(s)` is `False` exactly for `""`. -/
def pyTruthy (s : String) : Bool := s != ""

/-- Python truthiness of an optional string: `None` and `""` are falsy. -/
def pyOpt : Option String → Bool
  | none => false
  | some s => pyTruthy s

/-- Environment of external collaborator responses for one candidate
(`ProgramProcessor`).  `genResult` is the code returned by the generation
request (`none` models an API failure); `fixResult cycle code err` is the code
returned by the fixing request of a given cycle given the faulty code and the
error message embedded in the fixing prompt; `compileRes c` is the error
reported by `compile_generated_program` (`none` or `""` means success, matching
`if error:`); `runErr c` is the error string reported by
`run_generated_program` (failure iff it is nonempty after stripping). -/
structure Env where
  genPromptExists : Bool
  fixPromptExists : Bool
  genResult : Option String
  genErr : String
  fixResult : Nat → String → String → Option String
  compileRes : String → Option String
  runErr : String → String

/-- Whether `compile_generated_program` reports failure for this code
(`if error:` on the returned optional error string). -/
def compileFails (env : Env) (code : String) : Bool := pyOpt (env.compileRes code)

/-- The compiler error string used after a failure report (`error` in the
source; `""` only in the success case). -/
def compileErrStr (env : Env) (code : String) : String := (env.compileRes code).getD ""

/-- Whether `run_generated_program` reports failure (`if error.strip():`). -/
def runFails (env : Env) (code : String) : Bool := (env.runErr code).trim != ""

/-- Error message recorded by `compile_check` on failure. -/
def compileErrMsg (env : Env) (code : String) : String :=
  "Compilation Error:\n" ++ compileErrStr env code

/-- Error message recorded by `run_check` on failure. -/
def runErrMsg (env : Env) (code : String) : String :=
  "Runtime Error:\n" ++ env.runErr code

/-- Errors appended by one `run_check` call (result of the check is otherwise
reported to the caller but, at the call sites modelled here, ignored). -/
def runCheckErrors (env : Env) (code : String) : List String :=
  if runFails env code then [runErrMsg env code] else []

/-- Result of `ProgramProcessor.fix_loop`: the returned fixed code (`none`
models Python `None`), the error messages appended to `encountered_errors`
during the loop, the number of fixing requests issued to `ask_any_model`, and
the codes on which `run_check` was invoked, in order. -/
structure FixRes where
  code : Option String
  errors : List String
  requests : Nat
  runChecks : List String
  deriving Repr

/-- `ProgramProcessor.fix_loop`, translated from `src/gen_w_improve.py`
lines 133-175.  The first `Nat` is the number of remaining cycles
(`n_fixing_cycles` at the top call), the second the current cycle index; the
two strings are `current_code` and `current_error`. -/
def fix_loop (env : Env) (compile_only : Bool) :
    Nat → Nat → String → String → FixRes
  | 0, _, _, _ => ⟨none, [], 0, []⟩
  | fuel + 1, cycle, current_code, current_error =>
    if !env.fixPromptExists then ⟨none, [], 0, []⟩
    else
      let fixed := env.fixResult cycle current_code current_error
      if !pyOpt fixed then ⟨none, [], 1, []⟩   -- `if not fixed_code: break`
      else
        let fc := fixed.getD ""
        if compileFails env fc then
          -- compile_check failed: record the error, continue with new code/error
          let r := fix_loop env compile_only fuel (cycle + 1) fc (compileErrStr env fc)
          ⟨r.code, compileErrMsg env fc :: r.errors, r.requests + 1, r.runChecks⟩
        else if !compile_only then
          -- run_check is performed; the fixed code is returned either way
          ⟨some fc, runCheckErrors env fc, 1, [fc]⟩
        else
          ⟨some fc, [], 1, []⟩

/-- Where `process` saved an artifact: the `generated_dir` of successful
candidates, or the `failed_dir` holding unrepaired code. -/
inductive Loc where
  | generatedDir
  | failedDir
  deriving DecidableEq, Repr

/-- Result of `ProgramProcessor.process`: the returned save path (`none` models
Python `None`), the returned error collection, the returned `was_fixed` flag,
the `save_text_to_file` writes performed (location and content), the number of
fixing requests issued, and the codes on which `run_check` was invoked. -/
structure ProcResult where
  savePath : Option Loc
  errors : List String
  was_fixed : Bool
  saves : List (Loc × String)
  fixRequests : Nat
  runChecks : List String
  deriving Repr

/-- `ProgramProcessor.process` (with the `generate` and `compile_check` /
`run_check` helpers inlined), translated from `src/gen_w_improve.py`
lines 73-131 and 177-204.  On the generation-failure path the raw
`encountered_errors` list is returned (line 182); on all other terminal paths
the source returns `list(set(self.encountered_errors))`, modelled by `dedup`
(Python set order is unspecified; only duplicate-freeness is relied upon). -/
def process (env : Env) (n_fixing_cycles : Nat) (compile_only : Bool) : ProcResult :=
  if !env.genPromptExists then
    -- `generate` returns None without recording an error (prompt missing)
    ⟨none, [], false, [], 0, []⟩
  else
    match env.genResult with
    | none =>
      -- `ask_any_model` returned no code: record the API error, terminal
      ⟨none, ["Generation API Error: " ++ env.genErr], false, [], 0, []⟩
    | some code =>
      if !pyTruthy code then
        -- `if not code:` with code not None but empty
        ⟨none, [], false, [], 0, []⟩
      else if !compileFails env code then
        -- first compile succeeded; run_check (result ignored) unless compile-only
        let rerrs := if !compile_only then runCheckErrors env code else []
        let runs := if !compile_only then [code] else []
        ⟨some Loc.generatedDir, rerrs.dedup, false, [(Loc.generatedDir, code)], 0, runs⟩
      else
        let errs0 := [compileErrMsg env code]
        let fr := fix_loop env compile_only n_fixing_cycles 0 code (compileErrStr env code)
        let allErrs := (errs0 ++ fr.errors).dedup
        if pyOpt fr.code then
          ⟨some Loc.generatedDir, allErrs, true, [(Loc.generatedDir, fr.code.getD "")],
            fr.requests, fr.runChecks⟩
        else
          -- the original (unfixed) code goes to the failed location
          ⟨none, allErrs, true, [(Loc.failedDir, code)], fr.requests, fr.runChecks⟩

/-! ### Stats aggregation (`run_production_phase`, lines 384-393)

Only the quality-score average is claim-relevant; quality scores are modelled
as exact rationals. -/

/-- The average-quality computation of `run_production_phase`:
`quality_scores = [s.quality_score for s in stats_list if s.quality_score is not None]`
then `sum(quality_scores)/len(quality_scores) if quality_scores else 0`. -/
def avg_quality_score (stats_list : List (Option ℚ)) : ℚ :=
  let quality_scores := stats_list.filterMap id
  if quality_scores ≠ [] then quality_scores.sum / quality_scores.length else 0

/-! ### Training loop (`run_training_phase`, lines 245-336)

A training batch is abstracted by the environment function `fixCount`, giving
the number of candidates of a round that reported `was_fixed` (the count
accumulated from `future.result()`), as a function of the round index and the
prompt in use; `improve` gives the prompt filename in use after the
improvement block of a round (on improvement failure the source keeps the
previous prompt, which `improve` may model by returning its argument). -/

/-- External behaviour observed by the training loop. -/
structure TrainEnv where
  fixCount : Nat → String → Nat
  improve : Nat → String → String

/-- The arguments the training loop reads. `training_n` is an `Int` because the
source guards `if args.training_n <= 0`. -/
structure TrainArgs where
  training_n : Int
  training_threshold : ℚ
  improve_prompt : Bool

/-- The starting prompt filename. -/
def default_prompt : String := "generation_prompt.txt"

/-- `max_rounds = 3` (fixed in the source). -/
def max_rounds : Nat := 3

/-- A round's `fix_ratio = count_needed_fix / args.training_n`. -/
def fixRate (env : TrainEnv) (args : TrainArgs) (round_idx : Nat) (prompt : String) : ℚ :=
  (env.fixCount round_idx prompt : ℚ) / (args.training_n : ℚ)

/-- Result of the training phase: the returned prompt, the number of batches
run, and the number of prompt-improvement requests issued. -/
structure TrainRes where
  prompt : String
  batches : Nat
  improveRequests : Nat
  deriving Repr

/-- The `for round_idx in range(max_rounds + 1)` loop of `run_training_phase`,
lines 260-336.  The first `Nat` is the number of remaining iterations, the
second the current `round_idx`; the strings are the current `prompt_filename`
and `best_prompt`, the rational the current `best_fix_ratio`. -/
def training_go (env : TrainEnv) (args : TrainArgs) :
    Nat → Nat → String → String → ℚ → TrainRes
  | 0, _, _, best_prompt, _ => ⟨best_prompt, 0, 0⟩
  | fuel + 1, round_idx, prompt, best_prompt, best_rate =>
    let rate := fixRate env args round_idx prompt
    -- `if fix_ratio < best_fix_ratio:` update (strict comparison)
    let best_prompt' := if rate < best_rate then prompt else best_prompt
    let best_rate' := if rate < best_rate then rate else best_rate
    if rate < args.training_threshold then
      -- `return prompt_filename`: accept immediately
      ⟨prompt, 1, 0⟩
    else if args.improve_prompt ∧ round_idx < max_rounds then
      let next := env.improve round_idx prompt
      let r := training_go env args fuel (round_idx + 1) next best_prompt' best_rate'
      ⟨r.prompt, r.batches + 1, r.improveRequests + 1⟩
    else
      let r := training_go env args fuel (round_idx + 1) prompt best_prompt' best_rate'
      ⟨r.prompt, r.batches + 1, r.improveRequests⟩

/-- `run_training_phase`, lines 245-336: the `training_n <= 0` guard returns
the starting prompt with no rounds; otherwise the round loop runs with
`best_prompt = prompt_filename` and `best_fix_ratio = 1.0`. -/
def run_training_phase (env : TrainEnv) (args : TrainArgs) : TrainRes :=
  if args.training_n ≤ 0 then ⟨default_prompt, 0, 0⟩
  else training_go env args (max_rounds + 1) 0 default_prompt default_prompt 1

/-- The prompt in use at a given round of the training loop (round 0 uses the
starting prompt; later rounds use the improvement result of the previous round
exactly when improvement is enabled and the previous round is before
`max_rounds`). -/
def roundPrompt (env : TrainEnv) (args : TrainArgs) : Nat → String
  | 0 => default_prompt
  | r + 1 =>
    if args.improve_prompt ∧ r < max_rounds then
      env.improve r (roundPrompt env args r)
    else
      roundPrompt env args r

/-- The fix ratio observed at a given round of the training loop. -/
def roundRate (env : TrainEnv) (args : TrainArgs) (r : Nat) : ℚ :=
  fixRate env args r (roundPrompt env args r)

/-- Index of the first minimum of `f` over `0, ..., n - 1` (`0` for `n = 0`). -/
def argminFirst (f : Nat → ℚ) : Nat → Nat
  | 0 => 0
  | n + 1 =>
    let j := argminFirst f n
    if f n < f j then n else j

/-! ### Combination sampler (`src/circuit_assembler.py`)

Randomness (the `random.randint` size draw followed by `random.sample`) is
modelled as an injected stream `draws` of already-sampled path tuples, indexed
by attempt number; `ok` tells whether `assemble` succeeds or raises on a
combination. -/

/-- `permutation_count` (lines 54-57): `math.perm(n_items, k_items)`, which is
`n!/(n-k)!` for `k ≤ n` and `0` for `k > n`. -/
def permutation_count (n_items k_items : Nat) : Nat :=
  if k_items ≤ n_items then n_items.factorial / (n_items - k_items).factorial else 0

/-- `max_unique_combinations` (lines 60-61):
`sum(permutation_count(n_files, k) for k in range(min_files, max_files + 1))`. -/
def max_unique_combinations (n_files min_files max_files : Nat) : Nat :=
  ((List.range' min_files (max_files + 1 - min_files)).map (permutation_count n_files)).sum

/-- `effective_max_files = min(args.max_files, len(input_files))` (line 101). -/
def effective_max_files (max_files n_files : Nat) : Nat := min max_files n_files

/-- `target_generations = min(args.n_generations, max_possible)` (lines
111-112), with `max_possible` computed over the effective maximum size. -/
def target_generations (n_generations n_files min_files max_files : Nat) : Nat :=
  min n_generations
    (max_unique_combinations n_files min_files (effective_max_files max_files n_files))

/-- `max_attempts_without_progress = max(1000, target_generations * 25)`
(line 129). -/
def max_attempts_wo_progress (target : Nat) : Nat := max 1000 (target * 25)

/-- State of the sampling loop (lines 125-152): the `seen_combinations` set
(as a list of the draws added, most recent first), the `generated_count` and
`failed_count` counters, the `attempts_without_progress` counter, the position
in the random stream, and the combinations on which `assemble` was invoked, in
order. -/
structure AsmState where
  seen : List (List String)
  generated : Nat
  failed : Nat
  attempts : Nat
  idx : Nat
  calls : List (List String)
  deriving Repr

/-- The `while` condition of line 132 has become false. -/
def assembler_done (target maxNP : Nat) (s : AsmState) : Bool :=
  !(s.generated < target && s.attempts < maxNP)

/-- One iteration of the sampling loop body (lines 133-152). -/
def assembler_step (draws : Nat → List String) (ok : List String → Bool)
    (s : AsmState) : AsmState :=
  let combo := draws s.idx
  if combo ∈ s.seen then
    -- duplicate draw: only the non-progress counter moves
    { s with attempts := s.attempts + 1, idx := s.idx + 1 }
  else
    let s' := { s with seen := combo :: s.seen, idx := s.idx + 1,
                       calls := s.calls ++ [combo] }
    if ok combo then
      { s' with generated := s.generated + 1, attempts := 0 }
    else
      -- assembly raised: logged, failure counted, loop continues
      { s' with failed := s.failed + 1, attempts := s.attempts + 1 }

/-- The sampling loop, with an explicit iteration budget so that termination
is a theorem rather than a definition-time assumption. -/
def assembler_loop (draws : Nat → List String) (ok : List String → Bool)
    (target maxNP : Nat) : Nat → AsmState → AsmState
  | 0, s => s
  | fuel + 1, s =>
    if assembler_done target maxNP s then s
    else assembler_loop draws ok target maxNP fuel (assembler_step draws ok s)

/-- Loop entry state: empty `seen`, all counters zero. -/
def asm_init : AsmState := ⟨[], 0, 0, 0, 0, []⟩

/-- What `k = random.randint(min, eff_max)` followed by
`random.sample(input_files, k)` guarantees about every draw: distinct entries,
all from the input files, size within the requested bounds. -/
def validDraw (files : List String) (min_files max_files : Nat)
    (c : List String) : Prop :=
  c.Nodup ∧ c ⊆ files ∧ min_files ≤ c.length ∧ c.length ≤ max_files

/-- `count_needed_fix` of a training round (lines 285-290): the number of
candidates of a batch whose `was_fixed` came back true (training batches run
in compile-only mode). -/
def count_needed_fix (envs : List Env) (n_fixing_cycles : Nat) : Nat :=
  (envs.map (fun e => (process e n_fixing_cycles true).was_fixed)).count true

/-- A round's fix ratio expressed over the batch of candidate environments
(`count_needed_fix / args.training_n`, line 294). -/
def batch_fix_rate (envs : List Env) (n_fixing_cycles : Nat) (training_n : Int) : ℚ :=
  (count_needed_fix envs n_fixing_cycles : ℚ) / (training_n : ℚ)

/-! ## Helper lemmas about the fix loop -/

/-- A truthy optional string holds a truthy string. -/
theorem pyOpt_getD {o : Option String} (h : pyOpt o = true) :
    pyTruthy (o.getD "") = true := by
  cases o with
  | none => simp [pyOpt] at h
  | some s => simpa [pyOpt] using h

/-- The fix loop only ever returns code that is truthy (the `if not
fixed_code: break` guard rejects empty results before they can be returned). -/
theorem fix_loop_code_truthy (env : Env) (co : Bool) :
    ∀ fuel cycle cc ce fc, (fix_loop env co fuel cycle cc ce).code = some fc →
      pyTruthy fc = true := by
  intro fuel
  induction fuel with
  | zero => intro cycle cc ce fc h; simp [fix_loop] at h
  | succ n ih =>
    intro cycle cc ce fc h
    cases hp : env.fixPromptExists with
    | false => simp [fix_loop, hp] at h
    | true =>
      cases hq : pyOpt (env.fixResult cycle cc ce) with
      | false => simp [fix_loop, hp, hq] at h
      | true =>
        cases hcmp : compileFails env ((env.fixResult cycle cc ce).getD "") with
        | true =>
          simp only [fix_loop, hp, hq, hcmp, Bool.not_true, Bool.false_eq_true,
            if_false, if_true] at h
          exact ih _ _ _ fc h
        | false =>
          cases co with
          | false =>
            simp only [fix_loop, hp, hq, hcmp, Bool.not_true, Bool.not_false,
              Bool.false_eq_true, if_false, if_true, Option.some.injEq] at h
            exact h ▸ pyOpt_getD hq
          | true =>
            simp only [fix_loop, hp, hq, hcmp, Bool.not_true, Bool.not_false,
              Bool.false_eq_true, if_false, if_true, Option.some.injEq] at h
            exact h ▸ pyOpt_getD hq

/-- When compile-only mode is off and the fix loop returns code, exactly one
execution check was performed, on that code. -/
theorem fix_loop_runChecks (env : Env) :
    ∀ fuel cycle cc ce fc, (fix_loop env false fuel cycle cc ce).code = some fc →
      (fix_loop env false fuel cycle cc ce).runChecks = [fc] := by
  intro fuel
  induction fuel with
  | zero => intro cycle cc ce fc h; simp [fix_loop] at h
  | succ n ih =>
    intro cycle cc ce fc h
    cases hp : env.fixPromptExists with
    | false => simp [fix_loop, hp] at h
    | true =>
      cases hq : pyOpt (env.fixResult cycle cc ce) with
      | false => simp [fix_loop, hp, hq] at h
      | true =>
        cases hcmp : compileFails env ((env.fixResult cycle cc ce).getD "") with
        | true =>
          simp only [fix_loop, hp, hq, hcmp, Bool.not_true, Bool.false_eq_true,
            if_false, if_true] at h ⊢
          exact ih _ _ _ fc h
        | false =>
          simp only [fix_loop, hp, hq, hcmp, Bool.not_true, Bool.not_false,
            Bool.false_eq_true, if_false, if_true, Option.some.injEq] at h ⊢
          rw [h]

/-- The execution-check collaborator has no influence on which code the fix
loop returns, how many fixing requests it issues, or which codes it
run-checks: two environments that agree on the fixing prompt, the fixer and
the compiler produce the same fix-loop outcome in those three components. -/
theorem fix_loop_agree (co : Bool) (env env' : Env)
    (h1 : env'.fixPromptExists = env.fixPromptExists)
    (h2 : env'.fixResult = env.fixResult)
    (h3 : env'.compileRes = env.compileRes) :
    ∀ fuel cycle cc ce,
      (fix_loop env' co fuel cycle cc ce).code = (fix_loop env co fuel cycle cc ce).code ∧
      (fix_loop env' co fuel cycle cc ce).requests =
        (fix_loop env co fuel cycle cc ce).requests ∧
      (fix_loop env' co fuel cycle cc ce).runChecks =
        (fix_loop env co fuel cycle cc ce).runChecks := by
  have hcf : ∀ c, compileFails env' c = compileFails env c := by
    intro c; unfold compileFails; rw [h3]
  have hces : ∀ c, compileErrStr env' c = compileErrStr env c := by
    intro c; unfold compileErrStr; rw [h3]
  intro fuel
  induction fuel with
  | zero => intro _ _ _; exact ⟨rfl, rfl, rfl⟩
  | succ n ih =>
    intro cycle cc ce
    simp only [fix_loop]
    rw [h1, h2, hcf, hces]
    split
    · exact ⟨rfl, rfl, rfl⟩
    · split
      · exact ⟨rfl, rfl, rfl⟩
      · split
        · obtain ⟨e1, e2, e3⟩ := ih (cycle + 1)
            ((env.fixResult cycle cc ce).getD "")
            (compileErrStr env ((env.fixResult cycle cc ce).getD ""))
          exact ⟨e1, by simp only [e2], e3⟩
        · split
          · exact ⟨rfl, rfl, rfl⟩
          · exact ⟨rfl, rfl, rfl⟩

/-- Two candidate environments that agree on everything except the
execution-check collaborator produce identical `process` outcomes in every
component except the error log. -/
theorem process_agree (n : Nat) (co : Bool) (env env' : Env)
    (hgp : env'.genPromptExists = env.genPromptExists)
    (hgr : env'.genResult = env.genResult)
    (hfp : env'.fixPromptExists = env.fixPromptExists)
    (hfx : env'.fixResult = env.fixResult)
    (hcr : env'.compileRes = env.compileRes) :
    (process env' n co).savePath = (process env n co).savePath ∧
    (process env' n co).was_fixed = (process env n co).was_fixed ∧
    (process env' n co).saves = (process env n co).saves ∧
    (process env' n co).fixRequests = (process env n co).fixRequests ∧
    (process env' n co).runChecks = (process env n co).runChecks := by
  have hcf : ∀ c, compileFails env' c = compileFails env c := by
    intro c; unfold compileFails; rw [hcr]
  have hces : ∀ c, compileErrStr env' c = compileErrStr env c := by
    intro c; unfold compileErrStr; rw [hcr]
  cases hpe : env.genPromptExists with
  | false =>
    have hpe' : env'.genPromptExists = false := hgp.trans hpe
    simp [process, hpe, hpe']
  | true =>
    have hpe' : env'.genPromptExists = true := hgp.trans hpe
    cases henv : env.genResult with
    | none =>
      have henv' : env'.genResult = none := hgr.trans henv
      simp [process, hpe, hpe', henv, henv']
    | some code =>
      have henv' : env'.genResult = some code := hgr.trans henv
      cases htc : pyTruthy code with
      | false => simp [process, hpe, hpe', henv, henv', htc]
      | true =>
        cases hcc : compileFails env code with
        | false =>
          have hcc' : compileFails env' code = false := (hcf code).trans hcc
          simp [process, hpe, hpe', henv, henv', htc, hcc, hcc']
        | true =>
          have hcc' : compileFails env' code = true := (hcf code).trans hcc
          obtain ⟨e1, e2, e3⟩ :=
            fix_loop_agree co env env' hfp hfx hcr n 0 code (compileErrStr env code)
          simp only [process, hpe, hpe', henv, henv', htc, hcc, hcc', hces code,
            Bool.not_true, Bool.not_false, Bool.false_eq_true, if_false, if_true]
          rw [e1]
          split
          · exact ⟨rfl, rfl, rfl, by rw [e2], by rw [e3]⟩
          · exact ⟨rfl, rfl, rfl, by rw [e2], by rw [e3]⟩

/-! ## Claim theorems about the candidate state machine -/

/-- C1: a candidate whose generated code fails its first compile check and
whose fix loop produces code (which the loop only does after that code
compiles) in compile-and-run mode has an execution check performed on the
fixed code, yet terminates successfully: the artifact saved to the generated
location is the fixed code, `was_fixed` is true, and none of the terminal
classification, the saved artifact, or the number of fixing requests depends
on the execution-check collaborator — execution failure neither re-enters the
fix loop nor flips the candidate to failed. -/
theorem fix_success_terminal_regardless_of_execution (env : Env) (n : Nat)
    (code fc : String)
    (hp : env.genPromptExists = true) (hg : env.genResult = some code)
    (ht : pyTruthy code = true) (hc : compileFails env code = true)
    (hfix : (fix_loop env false n 0 code (compileErrStr env code)).code = some fc) :
    (process env n false).savePath = some Loc.generatedDir ∧
    (process env n false).was_fixed = true ∧
    (process env n false).saves = [(Loc.generatedDir, fc)] ∧
    (process env n false).runChecks = [fc] ∧
    (∀ g : String → String,
      (process { env with runErr := g } n false).savePath = some Loc.generatedDir ∧
      (process { env with runErr := g } n false).was_fixed = true ∧
      (process { env with runErr := g } n false).saves = [(Loc.generatedDir, fc)] ∧
      (process { env with runErr := g } n false).fixRequests =
        (process env n false).fixRequests) := by
  have htr : pyTruthy fc = true :=
    fix_loop_code_truthy env false n 0 code (compileErrStr env code) fc hfix
  have hrc : (fix_loop env false n 0 code (compileErrStr env code)).runChecks = [fc] :=
    fix_loop_runChecks env n 0 code (compileErrStr env code) fc hfix
  have hmain : (process env n false).savePath = some Loc.generatedDir ∧
      (process env n false).was_fixed = true ∧
      (process env n false).saves = [(Loc.generatedDir, fc)] ∧
      (process env n false).runChecks = [fc] := by
    simp [process, hp, hg, ht, hc, hfix, hrc, pyOpt, htr]
  refine ⟨hmain.1, hmain.2.1, hmain.2.2.1, hmain.2.2.2, ?_⟩
  intro g
  obtain ⟨a1, a2, a3, a4, -⟩ :=
    process_agree n false env { env with runErr := g } rfl rfl rfl rfl rfl
  exact ⟨a1.trans hmain.1, a2.trans hmain.2.1, a3.trans hmain.2.2.1, a4⟩

/-- C6: a candidate whose first compile check succeeds never invokes the
fixer — zero fixing requests are issued — and ends with the artifact saved to
the generated location and `was_fixed` false. -/
theorem first_compile_success_skips_fixer (env : Env) (n : Nat) (co : Bool)
    (code : String)
    (hp : env.genPromptExists = true) (hg : env.genResult = some code)
    (ht : pyTruthy code = true) (hc : compileFails env code = false) :
    (process env n co).fixRequests = 0 ∧
    (process env n co).was_fixed = false ∧
    (process env n co).savePath = some Loc.generatedDir ∧
    (process env n co).saves = [(Loc.generatedDir, code)] := by
  simp [process, hp, hg, ht, hc]

/-- C7: a candidate whose fix loop ends without producing compiling code —
whether by exhausting every cycle, by the fixer returning no code, or by the
fixing prompt being missing — yields no saved-artifact result: the returned
path is `None`, the original unfixed generated code (not any fix attempt) is
the one written, to the failed location, and `was_fixed` is true. -/
theorem fix_exhaustion_saves_original (env : Env) (n : Nat) (co : Bool)
    (code : String)
    (hp : env.genPromptExists = true) (hg : env.genResult = some code)
    (ht : pyTruthy code = true) (hc : compileFails env code = true)
    (hfix : (fix_loop env co n 0 code (compileErrStr env code)).code = none) :
    (process env n co).savePath = none ∧
    (process env n co).saves = [(Loc.failedDir, code)] ∧
    (process env n co).was_fixed = true := by
  simp [process, hp, hg, ht, hc, hfix, pyOpt]

/-- C9: on every terminal outcome of `process` — generation failure, success
without fixing, success after fixing, failure after fixing — the returned
error collection contains no duplicate message strings. -/
theorem errors_no_duplicates (env : Env) (n : Nat) (co : Bool) :
    (process env n co).errors.Nodup := by
  simp only [process]
  split
  · simp
  · split
    · simp
    · split
      · simp
      · split
        · exact List.nodup_dedup _
        · split
          · exact List.nodup_dedup _
          · exact List.nodup_dedup _

/-- Setting one element of a boolean list to `false` cannot increase the
number of `true` entries. -/
theorem count_true_set_false :
    ∀ (l : List Bool) (i : Nat), (l.set i false).count true ≤ l.count true := by
  intro l
  induction l with
  | nil => intro i; simp
  | cons b t ih =>
    intro i
    cases i with
    | zero =>
      cases b <;> simp [List.count_cons]
    | succ j =>
      simp only [List.set, List.count_cons]
      have := ih j
      omega

/-- Mapping over a list with one element replaced. -/
theorem map_set_eq {α β : Type} (f : α → β) (a : α) :
    ∀ (l : List α) (i : Nat), (l.set i a).map f = (l.map f).set i (f a) := by
  intro l
  induction l with
  | nil => intro i; simp
  | cons b t ih =>
    intro i
    cases i with
    | zero => simp
    | succ j => simp [ih j]

/-- C10: a candidate whose generation collaborator returns no code at all
terminates with `was_fixed` false, an empty saved path and no artifact writes;
consequently a training batch containing it counts it in the fix-ratio
denominator (`training_n`) but never in the numerator, so replacing any
candidate of a batch by a generation-failing one can only lower the round's
fix ratio. -/
theorem generation_failure_not_fixed (env' : Env) (n : Nat) (co : Bool)
    (hg : env'.genResult = none) :
    (process env' n co).was_fixed = false ∧
    (process env' n co).savePath = none ∧
    (process env' n co).saves = [] ∧
    (∀ (envs : List Env) (i : Nat) (t : Int), 0 < t →
      count_needed_fix (envs.set i env') n ≤ count_needed_fix envs n ∧
      batch_fix_rate (envs.set i env') n t ≤ batch_fix_rate envs n t) := by
  have hwf : (process env' n true).was_fixed = false := by
    cases hpe : env'.genPromptExists <;> simp [process, hpe, hg]
  refine ⟨?_, ?_, ?_, ?_⟩
  · cases hpe : env'.genPromptExists <;> simp [process, hpe, hg]
  · cases hpe : env'.genPromptExists <;> simp [process, hpe, hg]
  · cases hpe : env'.genPromptExists <;> simp [process, hpe, hg]
  · intro envs i t ht
    have hcount : count_needed_fix (envs.set i env') n ≤ count_needed_fix envs n := by
      unfold count_needed_fix
      rw [map_set_eq, hwf]
      exact count_true_set_false _ i
    refine ⟨hcount, ?_⟩
    unfold batch_fix_rate
    have htq : (0 : ℚ) < (t : ℚ) := by exact_mod_cast ht
    exact div_le_div_of_nonneg_right (by exact_mod_cast hcount) htq.le

/-! ## Concrete candidate environments used as witnesses -/

/-- A candidate whose generated code fails compile, whose first fix attempt
also fails compile, and whose second fix attempt compiles but fails its
execution check. -/
def wEnvFix : Env where
  genPromptExists := true
  fixPromptExists := true
  genResult := some "c0"
  genErr := ""
  fixResult := fun cycle _ _ => if cycle = 0 then some "c1" else some "c2"
  compileRes := fun c => if c = "c2" then none else some ("bad " ++ c)
  runErr := fun _ => " boom "

/-- A candidate whose generated code compiles first time. -/
def wEnvOk : Env := { wEnvFix with compileRes := fun _ => none }

/-- A candidate for which every compile check fails. -/
def wEnvBad : Env := { wEnvFix with compileRes := fun c => some ("bad " ++ c) }

/-- A candidate whose generation request returns no code. -/
def wEnvGenFail : Env := { wEnvFix with genResult := none, genErr := "api down" }

/-- Witness for C1 at a concrete candidate with `n_fixing_cycles = 2`. -/
theorem fix_success_witness :
    (process wEnvFix 2 false).savePath = some Loc.generatedDir ∧
    (process wEnvFix 2 false).was_fixed = true ∧
    (process wEnvFix 2 false).saves = [(Loc.generatedDir, "c2")] ∧
    (process wEnvFix 2 false).runChecks = ["c2"] ∧
    (process { wEnvFix with runErr := fun _ => "" } 2 false).savePath =
      some Loc.generatedDir := by
  have h := fix_success_terminal_regardless_of_execution wEnvFix 2 "c0" "c2"
    rfl rfl (by decide) (by decide) (by decide)
  exact ⟨h.1, h.2.1, h.2.2.1, h.2.2.2.1, (h.2.2.2.2 (fun _ => "")).1⟩

/-- Witness for C6 at a concrete candidate. -/
theorem first_compile_witness :
    (process wEnvOk 2 false).fixRequests = 0 ∧
    (process wEnvOk 2 false).was_fixed = false ∧
    (process wEnvOk 2 false).savePath = some Loc.generatedDir ∧
    (process wEnvOk 2 false).saves = [(Loc.generatedDir, "c0")] :=
  first_compile_success_skips_fixer wEnvOk 2 false "c0" rfl rfl (by decide) (by decide)

/-- Witness for C7 at a concrete candidate whose fix loop exhausts both
cycles. -/
theorem fix_exhaustion_witness :
    (process wEnvBad 2 false).savePath = none ∧
    (process wEnvBad 2 false).saves = [(Loc.failedDir, "c0")] ∧
    (process wEnvBad 2 false).was_fixed = true :=
  fix_exhaustion_saves_original wEnvBad 2 false "c0" rfl rfl (by decide) (by decide)
    (by decide)

/-- Witness for C10 at a concrete generation-failing candidate inside a
one-element batch. -/
theorem generation_failure_witness :
    (process wEnvGenFail 2 true).was_fixed = false ∧
    (process wEnvGenFail 2 true).savePath = none ∧
    count_needed_fix ([wEnvFix].set 0 wEnvGenFail) 2 ≤ count_needed_fix [wEnvFix] 2 ∧
    batch_fix_rate ([wEnvFix].set 0 wEnvGenFail) 2 1 ≤ batch_fix_rate [wEnvFix] 2 1 := by
  have h := generation_failure_not_fixed wEnvGenFail 2 true rfl
  have h2 := h.2.2.2 [wEnvFix] 0 1 (by decide)
  exact ⟨h.1, h.2.1, h2.1, h2.2⟩

/-! ## Claim theorem about the stats aggregator -/

/-- C8: the average quality score is computed only over candidates that
reported one — a candidate with no score is excluded from both numerator and
denominator (inserting it anywhere leaves the average unchanged), so the batch
`{0.8, None, 0.4}` averages to `0.6`, not `0.4`. -/
theorem avg_quality_excludes_missing :
    (∀ l1 l2 : List (Option ℚ),
      avg_quality_score (l1 ++ none :: l2) = avg_quality_score (l1 ++ l2)) ∧
    avg_quality_score [some 0.8, none, some 0.4] = 0.6 ∧
    avg_quality_score [some 0.8, none, some 0.4] ≠ 0.4 := by
  refine ⟨?_, ?_, ?_⟩
  · intro l1 l2
    unfold avg_quality_score
    simp [List.filterMap_append]
  · have hfm : List.filterMap id [some (0.8 : ℚ), none, some 0.4] = [0.8, 0.4] := rfl
    simp only [avg_quality_score, hfm]
    rw [if_pos (by simp)]
    norm_num
  · have hfm : List.filterMap id [some (0.8 : ℚ), none, some 0.4] = [0.8, 0.4] := rfl
    simp only [avg_quality_score, hfm]
    rw [if_pos (by simp)]
    norm_num

/-- Witness for C8 at concrete surrounding lists. -/
theorem avg_quality_witness :
    avg_quality_score ([some 0.8] ++ none :: [some 0.4]) =
      avg_quality_score ([some 0.8] ++ [some 0.4]) :=
  avg_quality_excludes_missing.1 [some 0.8] [some 0.4]

/-! ## Training-loop lemmas -/

/-- `fixRate` at a round's own prompt is that round's observed fix ratio. -/
theorem roundRate_def (env : TrainEnv) (args : TrainArgs) (r : Nat) :
    fixRate env args r (roundPrompt env args r) = roundRate env args r := rfl

/-- The prompt of the round after `r`, as the loop computes it. -/
theorem roundPrompt_succ (env : TrainEnv) (args : TrainArgs) (r : Nat) :
    roundPrompt env args (r + 1) =
      if args.improve_prompt ∧ r < max_rounds then env.improve r (roundPrompt env args r)
      else roundPrompt env args r := rfl

/-- The best-prompt/best-ratio accumulator folded over rounds `r, ...,
r + fuel - 1`, mirroring the `best_prompt` / `best_fix_ratio` updates of
`run_training_phase`. -/
def foldRounds (env : TrainEnv) (args : TrainArgs) :
    Nat → Nat → String × ℚ → String × ℚ
  | _, 0, acc => acc
  | r, fuel + 1, acc =>
    foldRounds env args (r + 1) fuel
      (if roundRate env args r < acc.2 then (roundPrompt env args r, roundRate env args r)
       else acc)

/-- Peeling the last round off the accumulator fold. -/
theorem foldRounds_succ (env : TrainEnv) (args : TrainArgs) :
    ∀ fuel r acc, foldRounds env args r (fuel + 1) acc =
      (if roundRate env args (r + fuel) < (foldRounds env args r fuel acc).2 then
        (roundPrompt env args (r + fuel), roundRate env args (r + fuel))
       else foldRounds env args r fuel acc) := by
  intro fuel
  induction fuel with
  | zero => intro r acc; simp [foldRounds]
  | succ f ih =>
    intro r acc
    rw [show foldRounds env args r (f + 1 + 1) acc =
      foldRounds env args (r + 1) (f + 1)
        (if roundRate env args r < acc.2 then
          (roundPrompt env args r, roundRate env args r) else acc) from rfl]
    rw [ih (r + 1)]
    rw [show foldRounds env args r (f + 1) acc =
      foldRounds env args (r + 1) f
        (if roundRate env args r < acc.2 then
          (roundPrompt env args r, roundRate env args r) else acc) from rfl]
    rw [show r + 1 + f = r + (f + 1) from by omega]

/-- Any round under the acceptance threshold terminates the loop at once with
that round's prompt, one batch from that point on, and no improvement
request. -/
theorem training_go_hit (env : TrainEnv) (args : TrainArgs) (fuel r : Nat)
    (bp : String) (br : ℚ)
    (h : roundRate env args r < args.training_threshold) :
    training_go env args (fuel + 1) r (roundPrompt env args r) bp br =
      ⟨roundPrompt env args r, 1, 0⟩ := by
  simp only [training_go, roundRate_def]
  rw [if_pos h]

/-- If the first `k` rounds starting at `r` are all at or above the threshold
and round `r + k` is below it, the loop started at round `r` (with enough
iterations left) returns round `r + k`'s prompt after `k + 1` batches; if
`k = 0` it issues no improvement request. -/
theorem training_go_reach (env : TrainEnv) (args : TrainArgs) :
    ∀ k fuel r bp br, k < fuel →
      (∀ i, i < k → ¬(roundRate env args (r + i) < args.training_threshold)) →
      roundRate env args (r + k) < args.training_threshold →
      (training_go env args fuel r (roundPrompt env args r) bp br).prompt =
          roundPrompt env args (r + k) ∧
        (training_go env args fuel r (roundPrompt env args r) bp br).batches = k + 1 ∧
        (k = 0 →
          (training_go env args fuel r (roundPrompt env args r) bp br).improveRequests = 0) := by
  intro k
  induction k with
  | zero =>
    intro fuel r bp br hf _ hbelow
    cases fuel with
    | zero => omega
    | succ f =>
      rw [training_go_hit env args f r bp br hbelow]
      exact ⟨rfl, rfl, fun _ => rfl⟩
  | succ k ih =>
    intro fuel r bp br hf hno hbelow
    cases fuel with
    | zero => omega
    | succ f =>
      have hr : ¬(roundRate env args r < args.training_threshold) := by
        have := hno 0 (by omega)
        simpa using this
      have h1 : ∀ i, i < k → ¬(roundRate env args (r + 1 + i) < args.training_threshold) := by
        intro i hi
        have := hno (i + 1) (by omega)
        have heq : r + (i + 1) = r + 1 + i := by omega
        rwa [heq] at this
      have h2 : roundRate env args (r + 1 + k) < args.training_threshold := by
        have heq : r + (k + 1) = r + 1 + k := by omega
        rwa [heq] at hbelow
      have hrp : r + (k + 1) = r + 1 + k := by omega
      simp only [training_go, roundRate_def]
      rw [if_neg hr]
      split
      · next himp =>
        have hp' : env.improve r (roundPrompt env args r) = roundPrompt env args (r + 1) := by
          rw [roundPrompt_succ, if_pos himp]
        rw [hp']
        obtain ⟨e1, e2, -⟩ := ih f (r + 1)
          (if roundRate env args r < br then roundPrompt env args r else bp)
          (if roundRate env args r < br then roundRate env args r else br)
          (by omega) h1 h2
        refine ⟨?_, ?_, fun h => absurd h (Nat.succ_ne_zero k)⟩
        · rw [hrp]; exact e1
        · exact congrArg (· + 1) e2
      · next himp =>
        have hp' : roundPrompt env args (r + 1) = roundPrompt env args r := by
          rw [roundPrompt_succ, if_neg himp]
        obtain ⟨e1, e2, -⟩ := ih f (r + 1)
          (if roundRate env args r < br then roundPrompt env args r else bp)
          (if roundRate env args r < br then roundRate env args r else br)
          (by omega) h1 h2
        rw [hp'] at e1 e2
        refine ⟨?_, ?_, fun h => absurd h (Nat.succ_ne_zero k)⟩
        · rw [hrp]; exact e1
        · exact congrArg (· + 1) e2

/-- As long as no round hits the acceptance threshold, the loop returns the
folded best-prompt accumulator. -/
theorem training_go_no_hit (env : TrainEnv) (args : TrainArgs) :
    ∀ fuel r bp br,
      (∀ i, i < fuel → ¬(roundRate env args (r + i) < args.training_threshold)) →
      (training_go env args fuel r (roundPrompt env args r) bp br).prompt =
        (foldRounds env args r fuel (bp, br)).1 := by
  intro fuel
  induction fuel with
  | zero => intro r bp br _; rfl
  | succ f ih =>
    intro r bp br hno
    have hr : ¬(roundRate env args r < args.training_threshold) := by
      simpa using hno 0 (by omega)
    have h1 : ∀ i, i < f → ¬(roundRate env args (r + 1 + i) < args.training_threshold) := by
      intro i hi
      have := hno (i + 1) (by omega)
      have heq : r + (i + 1) = r + 1 + i := by omega
      rwa [heq] at this
    have hfold : foldRounds env args r (f + 1) (bp, br) =
        foldRounds env args (r + 1) f
          (if roundRate env args r < br then (roundPrompt env args r, roundRate env args r)
           else (bp, br)) := rfl
    simp only [training_go, roundRate_def]
    rw [if_neg hr, hfold]
    split
    · next himp =>
      have hp' : env.improve r (roundPrompt env args r) = roundPrompt env args (r + 1) := by
        rw [roundPrompt_succ, if_pos himp]
      rw [hp']
      by_cases hbr : roundRate env args r < br
      · simp only [if_pos hbr]
        exact ih (r + 1) _ _ h1
      · simp only [if_neg hbr]
        exact ih (r + 1) _ _ h1
    · next himp =>
      have hp' : roundPrompt env args (r + 1) = roundPrompt env args r := by
        rw [roundPrompt_succ, if_neg himp]
      by_cases hbr : roundRate env args r < br
      · have e := ih (r + 1) (roundPrompt env args r) (roundRate env args r) h1
        rw [hp'] at e
        simp only [if_pos hbr]
        exact e
      · have e := ih (r + 1) bp br h1
        rw [hp'] at e
        simp only [if_neg hbr]
        exact e

/-- `argminFirst` over a nonempty range is inside the range. -/
theorem argminFirst_lt (f : Nat → ℚ) : ∀ n, 0 < n → argminFirst f n < n := by
  intro n
  induction n with
  | zero => omega
  | succ m ih =>
    intro _
    simp only [argminFirst]
    split
    · omega
    · cases Nat.eq_zero_or_pos m with
      | inl h0 => subst h0; simp [argminFirst]
      | inr hpos => exact Nat.lt_succ_of_lt (ih hpos)

/-- `argminFirst` attains the minimum over the range. -/
theorem argminFirst_le_min (f : Nat → ℚ) :
    ∀ n i, i < n → f (argminFirst f n) ≤ f i := by
  intro n
  induction n with
  | zero => intro i hi; omega
  | succ m ih =>
    intro i hi
    simp only [argminFirst]
    split
    · next hlt =>
      rcases Nat.lt_succ_iff_lt_or_eq.mp hi with h | h
      · exact le_trans hlt.le (ih i h)
      · subst h; exact le_refl _
    · next hge =>
      rcases Nat.lt_succ_iff_lt_or_eq.mp hi with h | h
      · exact ih i h
      · subst h; exact not_lt.mp hge

/-- Every index strictly before `argminFirst` has a strictly larger value:
ties keep the earliest round. -/
theorem argminFirst_first (f : Nat → ℚ) :
    ∀ n i, i < argminFirst f n → f (argminFirst f n) < f i := by
  intro n
  induction n with
  | zero => intro i hi; simp [argminFirst] at hi
  | succ m ih =>
    intro i hi
    simp only [argminFirst] at hi ⊢
    by_cases hlt : f m < f (argminFirst f m)
    · rw [if_pos hlt] at hi ⊢
      exact lt_of_lt_of_le hlt (argminFirst_le_min f m i hi)
    · rw [if_neg hlt] at hi ⊢
      exact ih i hi

/-- Under ratios bounded by the initial `best_fix_ratio = 1.0`, the folded
accumulator lands exactly on the first-minimum round. -/
theorem foldRounds_argmin (env : TrainEnv) (args : TrainArgs) :
    ∀ n, 1 ≤ n → (∀ i, i < n → roundRate env args i ≤ 1) →
      foldRounds env args 0 n (default_prompt, 1) =
        (roundPrompt env args (argminFirst (roundRate env args) n),
         roundRate env args (argminFirst (roundRate env args) n)) := by
  intro n
  induction n with
  | zero => omega
  | succ m ih =>
    intro _ hle
    cases Nat.eq_zero_or_pos m with
    | inl h0 =>
      subst h0
      by_cases h : roundRate env args 0 < 1
      · simp [foldRounds, argminFirst, if_pos h]
      · have h1 : roundRate env args 0 = 1 :=
          le_antisymm (hle 0 (by omega)) (not_lt.mp h)
        simp [foldRounds, argminFirst, if_neg h, h1]
        exact rfl
    | inr hpos =>
      rw [foldRounds_succ, ih hpos (fun i hi => hle i (by omega))]
      simp only [Nat.zero_add, argminFirst]
      by_cases hlt : roundRate env args m <
          roundRate env args (argminFirst (roundRate env args) m)
      · rw [if_pos hlt, if_pos hlt]
      · rw [if_neg hlt, if_neg hlt]

/-! ## Claim theorems about the training loop -/

/-- C4: any round whose fix ratio is strictly below `training_threshold`
accepts immediately: the loop returns that round's prompt after exactly that
many batches and runs no further round; in particular a round-0 hit returns
the starting prompt after one batch with zero prompt-improvement requests,
whatever `improve_prompt` is. -/
theorem training_accepts_below_threshold (env : TrainEnv) (args : TrainArgs)
    (k : Nat) (hn : 0 < args.training_n) (hk : k ≤ max_rounds)
    (hprev : ∀ i, i < k → ¬(roundRate env args i < args.training_threshold))
    (hbelow : roundRate env args k < args.training_threshold) :
    (run_training_phase env args).prompt = roundPrompt env args k ∧
    (run_training_phase env args).batches = k + 1 ∧
    (k = 0 → (run_training_phase env args).prompt = default_prompt ∧
      (run_training_phase env args).improveRequests = 0) := by
  have hng : ¬(args.training_n ≤ 0) := by omega
  have h := training_go_reach env args k (max_rounds + 1) 0 default_prompt 1
    (by omega)
    (by intro i hi; rw [Nat.zero_add]; exact hprev i hi)
    (by rw [Nat.zero_add]; exact hbelow)
  rw [Nat.zero_add] at h
  unfold run_training_phase
  rw [if_neg hng]
  have h1' : (training_go env args (max_rounds + 1) 0 default_prompt default_prompt 1).prompt =
      roundPrompt env args k := h.1
  refine ⟨h1', h.2.1, fun hk0 => ⟨?_, h.2.2 hk0⟩⟩
  rw [h1', hk0]
  rfl

/-- C5: when every round stays at or above the threshold, the loop returns the
prompt of the round with the strictly lowest observed fix ratio (the earliest
such round on ties — the best is only ever replaced by a strictly lower
ratio); that round is one of the rounds actually evaluated, and if no round
improved on the initial `best_fix_ratio = 1.0` the starting prompt is
returned. -/
theorem training_returns_best_prompt (env : TrainEnv) (args : TrainArgs)
    (hn : 0 < args.training_n)
    (hcnt : ∀ r, r ≤ max_rounds →
      (env.fixCount r (roundPrompt env args r) : Int) ≤ args.training_n)
    (hall : ∀ r, r ≤ max_rounds → ¬(roundRate env args r < args.training_threshold)) :
    (run_training_phase env args).prompt =
      roundPrompt env args (argminFirst (roundRate env args) (max_rounds + 1)) ∧
    argminFirst (roundRate env args) (max_rounds + 1) ≤ max_rounds ∧
    (∀ i, i ≤ max_rounds →
      roundRate env args (argminFirst (roundRate env args) (max_rounds + 1)) ≤
        roundRate env args i) ∧
    (∀ i, i < argminFirst (roundRate env args) (max_rounds + 1) →
      roundRate env args (argminFirst (roundRate env args) (max_rounds + 1)) <
        roundRate env args i) ∧
    ((∀ i, i ≤ max_rounds → ¬(roundRate env args i < 1)) →
      (run_training_phase env args).prompt = default_prompt) := by
  have hng : ¬(args.training_n ≤ 0) := by omega
  have hle1 : ∀ i, i ≤ max_rounds → roundRate env args i ≤ 1 := by
    intro i hi
    unfold roundRate fixRate
    rw [div_le_one (by exact_mod_cast hn)]
    exact_mod_cast hcnt i hi
  have hfold := training_go_no_hit env args (max_rounds + 1) 0 default_prompt 1
    (by intro i hi; rw [Nat.zero_add]; exact hall i (by omega))
  have hmain := foldRounds_argmin env args (max_rounds + 1) (by omega)
    (fun i hi => hle1 i (by omega))
  have hprompt : (run_training_phase env args).prompt =
      roundPrompt env args (argminFirst (roundRate env args) (max_rounds + 1)) := by
    unfold run_training_phase
    rw [if_neg hng]
    exact hfold.trans (by rw [hmain])
  have hj : argminFirst (roundRate env args) (max_rounds + 1) ≤ max_rounds :=
    Nat.lt_succ_iff.mp (argminFirst_lt (roundRate env args) (max_rounds + 1) (by omega))
  refine ⟨hprompt, hj, ?_, ?_, ?_⟩
  · intro i hi
    exact argminFirst_le_min (roundRate env args) (max_rounds + 1) i (by omega)
  · intro i hi
    exact argminFirst_first (roundRate env args) (max_rounds + 1) i hi
  · intro hnone
    have hz : argminFirst (roundRate env args) (max_rounds + 1) = 0 := by
      by_contra hne
      have hpos : 0 < argminFirst (roundRate env args) (max_rounds + 1) :=
        Nat.pos_of_ne_zero hne
      have hlt := argminFirst_first (roundRate env args) (max_rounds + 1) 0 hpos
      have h0 : roundRate env args 0 = 1 :=
        le_antisymm (hle1 0 (by omega)) (not_lt.mp (hnone 0 (by omega)))
      have hjj : roundRate env args (argminFirst (roundRate env args) (max_rounds + 1)) = 1 :=
        le_antisymm (hle1 _ hj) (not_lt.mp (hnone _ hj))
      rw [h0, hjj] at hlt
      exact absurd hlt (lt_irrefl 1)
    rw [hprompt, hz]
    rfl

/-- A training environment whose round 0 needs 9 fixes out of 10 and whose
later rounds need 7; the improver appends a marker to the prompt. -/
def wTrainEnv : TrainEnv where
  fixCount := fun r _ => if r = 0 then 9 else 7
  improve := fun _ p => p ++ "!"

/-- Training arguments: 10 candidates per round, threshold 0.8, improvement
enabled. -/
def wTrainArgs : TrainArgs where
  training_n := 10
  training_threshold := 4 / 5
  improve_prompt := true

/-- Witness for C4: round 0 misses the 0.8 threshold at ratio 0.9, round 1
hits it at 0.7, so the loop stops after two batches with round 1's prompt. -/
theorem training_accepts_witness :
    (run_training_phase wTrainEnv wTrainArgs).prompt = roundPrompt wTrainEnv wTrainArgs 1 ∧
    (run_training_phase wTrainEnv wTrainArgs).batches = 2 := by
  have h := training_accepts_below_threshold wTrainEnv wTrainArgs 1 (by decide) (by decide)
    (by
      intro i hi
      interval_cases i
      simp only [roundRate, fixRate, roundPrompt, wTrainEnv, wTrainArgs]
      norm_num)
    (by
      simp only [roundRate, fixRate, wTrainEnv, wTrainArgs]
      norm_num)
  exact ⟨h.1, h.2.1⟩

/-- A training environment whose rounds need 9, 7, 9, 9 fixes out of 10, with
improvement disabled. -/
def wTrainEnv2 : TrainEnv where
  fixCount := fun r _ => if r = 1 then 7 else 9
  improve := fun _ p => p

/-- Training arguments with an unreachable threshold of 0. -/
def wTrainArgs2 : TrainArgs where
  training_n := 10
  training_threshold := 0
  improve_prompt := false

/-- Witness for C5: with every round at or above the threshold, the returned
prompt is the one of the first-minimum round. -/
theorem training_best_witness :
    (run_training_phase wTrainEnv2 wTrainArgs2).prompt =
      roundPrompt wTrainEnv2 wTrainArgs2
        (argminFirst (roundRate wTrainEnv2 wTrainArgs2) (max_rounds + 1)) ∧
    argminFirst (roundRate wTrainEnv2 wTrainArgs2) (max_rounds + 1) ≤ max_rounds := by
  have h := training_returns_best_prompt wTrainEnv2 wTrainArgs2 (by decide)
    (by
      intro r hr
      by_cases hr1 : r = 1 <;> simp [wTrainEnv2, wTrainArgs2, hr1])
    (by
      intro r hr
      rw [not_lt]
      simp only [roundRate, fixRate, wTrainArgs2]
      positivity)
  exact ⟨h.1, h.2.1⟩

/-! ## Combination-sampler lemmas -/

/-- `permutation_count` computes the descending factorial (this is what
`math.perm` returns, including the value `0` when `k > n`). -/
theorem permutation_count_eq_descFactorial (n k : Nat) :
    permutation_count n k = n.descFactorial k := by
  unfold permutation_count
  split
  · next h => exact (Nat.descFactorial_eq_div h).symm
  · next h => exact (Nat.descFactorial_eq_zero_iff_lt.mpr (by omega)).symm

/-- Every possible identity key: ordered tuples of distinct entries of
`files` whose size lies in `[min_files, max_files]`, enumerated as the
permutations of the sublists of each admissible size. -/
def allDrawsList (files : List String) (min_files max_files : Nat) :
    List (List String) :=
  (List.range' min_files (max_files + 1 - min_files)).flatMap
    (fun k => (files.sublistsLen k).flatMap (fun s => s.permutations))

/-- Any valid draw appears in the enumeration. -/
theorem validDraw_mem_allDrawsList {files : List String} {mink maxk : Nat}
    {c : List String} (hc : validDraw files mink maxk c) :
    c ∈ allDrawsList files mink maxk := by
  obtain ⟨hnd, hsub, hmin, hmax⟩ := hc
  obtain ⟨l, hl, hsl⟩ := hnd.subperm hsub
  unfold allDrawsList
  rw [List.mem_flatMap]
  refine ⟨c.length, ?_, ?_⟩
  · rw [List.mem_range'_1]
    omega
  · rw [List.mem_flatMap]
    refine ⟨l, ?_, ?_⟩
    · rw [List.mem_sublistsLen]
      exact ⟨hsl, hl.length_eq⟩
    · rw [List.mem_permutations]
      exact hl.symm

/-- The enumeration has exactly `max_unique_combinations` entries. -/
theorem length_allDrawsList (files : List String) (mink maxk : Nat) :
    (allDrawsList files mink maxk).length =
      max_unique_combinations files.length mink maxk := by
  unfold allDrawsList max_unique_combinations
  rw [List.length_flatMap]
  refine congrArg List.sum (List.map_congr_left ?_)
  intro k hk
  simp only [Function.comp]
  rw [List.length_flatMap]
  have hmap : (files.sublistsLen k).map (List.length ∘ List.permutations) =
      (files.sublistsLen k).map (fun _ => k.factorial) := by
    apply List.map_congr_left
    intro s hs
    have hsl : s.length = k := (List.mem_sublistsLen.mp hs).2
    simp [Function.comp, List.length_permutations, hsl]
  rw [hmap, List.map_const']
  simp only [List.sum_replicate, smul_eq_mul, List.length_sublistsLen]
  rw [permutation_count_eq_descFactorial, Nat.descFactorial_eq_factorial_mul_choose]
  exact Nat.mul_comm _ _

/-- A duplicate-free collection of valid draws can have at most
`max_unique_combinations` entries. -/
theorem nodup_valid_length_le (files : List String) (mink maxk : Nat)
    (seen : List (List String)) (hnd : seen.Nodup)
    (hval : ∀ c ∈ seen, validDraw files mink maxk c) :
    seen.length ≤ max_unique_combinations files.length mink maxk := by
  have hsub : seen.toFinset ⊆ (allDrawsList files mink maxk).toFinset := by
    intro c hcmem
    rw [List.mem_toFinset] at hcmem ⊢
    exact validDraw_mem_allDrawsList (hval c hcmem)
  calc seen.length = seen.toFinset.card := (List.toFinset_card_of_nodup hnd).symm
    _ ≤ (allDrawsList files mink maxk).toFinset.card := Finset.card_le_card hsub
    _ ≤ (allDrawsList files mink maxk).length := List.toFinset_card_le _
    _ = max_unique_combinations files.length mink maxk :=
        length_allDrawsList files mink maxk

/-- Invariant of the sampling loop: `seen` is duplicate-free and holds only
valid draws, `assemble` was called on pairwise-distinct keys that were all
recorded in `seen`, and successes never outnumber recorded keys. -/
def AsmInv (files : List String) (mink maxk : Nat) (s : AsmState) : Prop :=
  s.seen.Nodup ∧ (∀ c ∈ s.seen, validDraw files mink maxk c) ∧
  s.calls.Nodup ∧ (∀ c ∈ s.calls, c ∈ s.seen) ∧ s.generated ≤ s.seen.length

/-- One loop iteration preserves the invariant. -/
theorem assembler_step_inv (draws : Nat → List String) (ok : List String → Bool)
    (files : List String) (mink maxk : Nat)
    (hdraws : ∀ i, validDraw files mink maxk (draws i))
    (s : AsmState) (h : AsmInv files mink maxk s) :
    AsmInv files mink maxk (assembler_step draws ok s) := by
  obtain ⟨h1, h2, h3, h4, h5⟩ := h
  simp only [assembler_step]
  split
  · exact ⟨h1, h2, h3, h4, h5⟩
  · next hnew =>
    have hcalls : (s.calls ++ [draws s.idx]).Nodup := by
      rw [List.nodup_append]
      refine ⟨h3, List.nodup_singleton _, ?_⟩
      intro a ha hmem
      rw [List.mem_singleton] at hmem
      subst hmem
      exact hnew (h4 _ ha)
    have hseen : (draws s.idx :: s.seen).Nodup := List.nodup_cons.mpr ⟨hnew, h1⟩
    have hval : ∀ c ∈ draws s.idx :: s.seen, validDraw files mink maxk c := by
      intro c hc
      rcases List.mem_cons.mp hc with h | h
      · subst h; exact hdraws s.idx
      · exact h2 c h
    have hmem : ∀ c ∈ s.calls ++ [draws s.idx], c ∈ draws s.idx :: s.seen := by
      intro c hc
      rcases List.mem_append.mp hc with h | h
      · exact List.mem_cons_of_mem _ (h4 c h)
      · rw [List.mem_singleton] at h
        subst h
        exact List.mem_cons_self _ _
    split
    · exact ⟨hseen, hval, hcalls, hmem, by simpa using Nat.succ_le_succ h5⟩
    · exact ⟨hseen, hval, hcalls, hmem, by simpa using Nat.le_succ_of_le h5⟩

/-- The invariant is preserved by any number of loop iterations. -/
theorem assembler_loop_inv (draws : Nat → List String) (ok : List String → Bool)
    (target maxNP : Nat) (files : List String) (mink maxk : Nat)
    (hdraws : ∀ i, validDraw files mink maxk (draws i)) :
    ∀ fuel s, AsmInv files mink maxk s →
      AsmInv files mink maxk (assembler_loop draws ok target maxNP fuel s) := by
  intro fuel
  induction fuel with
  | zero => intro s h; exact h
  | succ f ih =>
    intro s h
    unfold assembler_loop
    split
    · exact h
    · exact ih _ (assembler_step_inv draws ok files mink maxk hdraws s h)

/-- The loop's termination measure: lexicographic progress packed into one
number. -/
def asm_measure (target maxNP : Nat) (s : AsmState) : Nat :=
  (target - s.generated) * (maxNP + 1) + (maxNP - s.attempts)

/-- Each executed iteration strictly decreases the measure: duplicates and
failures consume the remaining non-progress budget, successes consume the
remaining target. -/
theorem assembler_step_measure (draws : Nat → List String) (ok : List String → Bool)
    (target maxNP : Nat) (s : AsmState)
    (h : assembler_done target maxNP s = false) :
    asm_measure target maxNP (assembler_step draws ok s) <
      asm_measure target maxNP s := by
  unfold assembler_done at h
  simp only [Bool.not_eq_false', Bool.and_eq_true, decide_eq_true_eq] at h
  obtain ⟨hg, ha⟩ := h
  simp only [assembler_step]
  split
  · show (target - s.generated) * (maxNP + 1) + (maxNP - (s.attempts + 1)) <
      (target - s.generated) * (maxNP + 1) + (maxNP - s.attempts)
    have hgen : (target - s.generated) * (maxNP + 1) =
        (target - s.generated) * (maxNP + 1) := rfl
    generalize (target - s.generated) * (maxNP + 1) = P at hgen ⊢
    omega
  · split
    · show (target - (s.generated + 1)) * (maxNP + 1) + (maxNP - 0) <
        (target - s.generated) * (maxNP + 1) + (maxNP - s.attempts)
      have h1 : target - s.generated = (target - (s.generated + 1)) + 1 := by omega
      rw [h1, Nat.add_mul, one_mul]
      generalize (target - (s.generated + 1)) * (maxNP + 1) = P
      omega
    · show (target - s.generated) * (maxNP + 1) + (maxNP - (s.attempts + 1)) <
        (target - s.generated) * (maxNP + 1) + (maxNP - s.attempts)
      generalize (target - s.generated) * (maxNP + 1) = P
      omega

/-- Enough fuel drives the loop to a state where its `while` condition is
false. -/
theorem assembler_loop_done (draws : Nat → List String) (ok : List String → Bool)
    (target maxNP : Nat) :
    ∀ fuel s, asm_measure target maxNP s ≤ fuel →
      assembler_done target maxNP
        (assembler_loop draws ok target maxNP fuel s) = true := by
  intro fuel
  induction fuel with
  | zero =>
    intro s hm
    unfold asm_measure at hm
    have hg : target ≤ s.generated := by
      rcases le_or_lt target s.generated with h | h
      · exact h
      · exfalso
        have h1 : maxNP + 1 ≤ (target - s.generated) * (maxNP + 1) := by
          calc maxNP + 1 = 1 * (maxNP + 1) := (one_mul _).symm
            _ ≤ (target - s.generated) * (maxNP + 1) :=
                Nat.mul_le_mul_right _ (by omega)
        generalize (target - s.generated) * (maxNP + 1) = P at hm h1
        omega
    unfold assembler_loop assembler_done
    simp only [Bool.not_eq_true', Bool.and_eq_false_iff, decide_eq_false_iff_not]
    exact Or.inl (by omega)
  | succ f ih =>
    intro s hm
    unfold assembler_loop
    split
    · next hdone => exact hdone
    · next hnd =>
      have hd : assembler_done target maxNP s = false := by
        cases hdd : assembler_done target maxNP s with
        | false => rfl
        | true => exact absurd hdd hnd
      have hstep := assembler_step_measure draws ok target maxNP s hd
      exact ih _ (by omega)

/-! ## Claim theorems about the combination sampler -/

/-- C2: under bounds `1 ≤ min_k ≤ max_k ≤ n` and draws produced by
`random.sample`, the sampler never calls `assemble` twice on the same ordered
tuple of paths, records at most `sum P(n, k)` distinct combinations, produces
at most that many assemblies, and the target is capped at that bound before
sampling begins (for `n = 5`, `min_k = 2`, `max_k = 3` the bound is `80`, so a
request of `500` is capped to `80`). -/
theorem sampler_unique_and_capped (files : List String) (mink maxk n_gen fuel : Nat)
    (draws : Nat → List String) (ok : List String → Bool)
    (h1 : 1 ≤ mink) (h2 : mink ≤ maxk) (h3 : maxk ≤ files.length)
    (hdraws : ∀ i, validDraw files mink maxk (draws i)) :
    (assembler_loop draws ok (target_generations n_gen files.length mink maxk)
        (max_attempts_wo_progress (target_generations n_gen files.length mink maxk))
        fuel asm_init).calls.Nodup ∧
    (assembler_loop draws ok (target_generations n_gen files.length mink maxk)
        (max_attempts_wo_progress (target_generations n_gen files.length mink maxk))
        fuel asm_init).seen.length ≤ max_unique_combinations files.length mink maxk ∧
    (assembler_loop draws ok (target_generations n_gen files.length mink maxk)
        (max_attempts_wo_progress (target_generations n_gen files.length mink maxk))
        fuel asm_init).generated ≤ max_unique_combinations files.length mink maxk ∧
    target_generations n_gen files.length mink maxk ≤
      max_unique_combinations files.length mink maxk ∧
    (max_unique_combinations files.length mink maxk < n_gen →
      target_generations n_gen files.length mink maxk =
        max_unique_combinations files.length mink maxk) ∧
    target_generations 500 5 2 3 = 80 := by
  have hinit : AsmInv files mink maxk asm_init := by
    refine ⟨List.nodup_nil, ?_, List.nodup_nil, ?_, Nat.le_refl 0⟩
    · intro c hc; exact absurd hc (List.not_mem_nil c)
    · intro c hc; exact absurd hc (List.not_mem_nil c)
  obtain ⟨i1, i2, i3, i4, i5⟩ :=
    assembler_loop_inv draws ok (target_generations n_gen files.length mink maxk)
      (max_attempts_wo_progress (target_generations n_gen files.length mink maxk))
      files mink maxk hdraws fuel asm_init hinit
  have hlen := nodup_valid_length_le files mink maxk _ i1 i2
  have heff : effective_max_files maxk files.length = maxk := min_eq_left h3
  refine ⟨i3, hlen, le_trans i5 hlen, ?_, ?_, ?_⟩
  · unfold target_generations
    rw [heff]
    exact min_le_right _ _
  · intro hlt
    unfold target_generations
    rw [heff]
    exact min_eq_right (le_of_lt hlt)
  · rfl

/-- C3: the sampling loop always terminates — from the initial state an
explicit fuel bound reaches a state falsifying the `while` condition; every
duplicate draw advances only the non-progress counter; every assembly failure
advances the failure counter and the non-progress counter without touching
the success counter (and the loop continues); every success resets the
non-progress counter; and once the counter reaches
`max(1000, target_count * 25)` the loop stops immediately even if the target
is unmet. -/
theorem sampler_terminates (draws : Nat → List String) (ok : List String → Bool)
    (target : Nat) :
    (assembler_done target (max_attempts_wo_progress target)
      (assembler_loop draws ok target (max_attempts_wo_progress target)
        (target * (max_attempts_wo_progress target + 1) + max_attempts_wo_progress target)
        asm_init) = true) ∧
    (∀ s : AsmState, draws s.idx ∈ s.seen →
      assembler_step draws ok s =
        { s with attempts := s.attempts + 1, idx := s.idx + 1 }) ∧
    (∀ s : AsmState, draws s.idx ∉ s.seen → ok (draws s.idx) = false →
      (assembler_step draws ok s).failed = s.failed + 1 ∧
      (assembler_step draws ok s).attempts = s.attempts + 1 ∧
      (assembler_step draws ok s).generated = s.generated) ∧
    (∀ s : AsmState, draws s.idx ∉ s.seen → ok (draws s.idx) = true →
      (assembler_step draws ok s).attempts = 0 ∧
      (assembler_step draws ok s).generated = s.generated + 1) ∧
    (∀ (fuel : Nat) (s : AsmState), max_attempts_wo_progress target ≤ s.attempts →
      assembler_loop draws ok target (max_attempts_wo_progress target) fuel s = s) := by
  refine ⟨?_, ?_, ?_, ?_, ?_⟩
  · exact assembler_loop_done draws ok target (max_attempts_wo_progress target) _
      asm_init (Nat.le_of_eq rfl)
  · intro s hdup
    simp only [assembler_step]
    rw [if_pos hdup]
  · intro s hnew hfail
    simp only [assembler_step]
    rw [if_neg hnew, if_neg (by rw [hfail]; exact Bool.false_ne_true)]
    exact ⟨rfl, rfl, rfl⟩
  · intro s hnew hok
    simp only [assembler_step]
    rw [if_neg hnew, if_pos hok]
    exact ⟨rfl, rfl⟩
  · intro fuel s hatt
    cases fuel with
    | zero => rfl
    | succ f =>
      unfold assembler_loop
      rw [if_pos]
      unfold assembler_done
      simp only [Bool.not_eq_true', Bool.and_eq_false_iff, decide_eq_false_iff_not]
      exact Or.inr (by omega)

/-- Witness for C2 at three files with `min_k = 1`, `max_k = 2`, a request of
three assemblies, and a constant draw stream. -/
theorem sampler_unique_witness :
    (assembler_loop (fun _ => ["a", "b"]) (fun _ => true) (target_generations 3 3 1 2)
        (max_attempts_wo_progress (target_generations 3 3 1 2)) 5 asm_init).calls.Nodup ∧
    (assembler_loop (fun _ => ["a", "b"]) (fun _ => true) (target_generations 3 3 1 2)
        (max_attempts_wo_progress (target_generations 3 3 1 2)) 5 asm_init).generated ≤
      max_unique_combinations 3 1 2 ∧
    target_generations 500 5 2 3 = 80 := by
  have h := sampler_unique_and_capped ["a", "b", "c"] 1 2 3 5
    (fun _ => ["a", "b"]) (fun _ => true) (by decide) (by decide) (by decide)
    (fun _ => by constructor <;> simp)
  exact ⟨h.1, h.2.2.1, h.2.2.2.2.2⟩

/-- Witness for C3 at a two-draw stream whose first combination assembles and
whose second fails. -/
theorem sampler_terminates_witness :
    (assembler_done 1 (max_attempts_wo_progress 1)
      (assembler_loop (fun i => if i = 0 then ["a"] else ["b"])
        (fun c => c == ["a"]) 1 (max_attempts_wo_progress 1)
        (1 * (max_attempts_wo_progress 1 + 1) + max_attempts_wo_progress 1)
        asm_init) = true) ∧
    (assembler_step (fun i => if i = 0 then ["a"] else ["b"]) (fun c => c == ["a"])
      ⟨[["a"]], 0, 0, 0, 0, [["a"]]⟩ =
        { (⟨[["a"]], 0, 0, 0, 0, [["a"]]⟩ : AsmState) with attempts := 1, idx := 1 }) ∧
    (assembler_step (fun i => if i = 0 then ["a"] else ["b"]) (fun c => c == ["a"])
      ⟨[["a"]], 0, 0, 0, 1, [["a"]]⟩).failed = 1 ∧
    (assembler_step (fun i => if i = 0 then ["a"] else ["b"]) (fun c => c == ["a"])
      asm_init).generated = 1 ∧
    (assembler_loop (fun i => if i = 0 then ["a"] else ["b"]) (fun c => c == ["a"])
      1 (max_attempts_wo_progress 1) 7 ⟨[], 0, 0, 1000, 0, []⟩ =
        ⟨[], 0, 0, 1000, 0, []⟩) := by
  have h := sampler_terminates (fun i => if i = 0 then ["a"] else ["b"])
    (fun c => c == ["a"]) 1
  refine ⟨h.1, h.2.1 _ (by decide), (h.2.2.1 _ (by decide) (by decide)).1,
    (h.2.2.2.1 _ (by decide) (by decide)).2, h.2.2.2.2 7 _ (by decide)⟩

end QuillFuzz
